import Mathlib

/-!
Verification of `src/8-life/life.c` (Game of Life, method `Avery`).

The board is embedded as a total function `Nat → Nat → Nat`; the C arrays
`prv[i][j]` / `nxt[i][j]` are accessed through `rd` / `wr`, which perform the
bounds check `i < HEIGHT ∧ j < WIDTH` and return `none` on an out-of-bounds
access (a faithful total rendering of the C indexing, where an out-of-bounds
access would be undefined behavior).  The C `for` loops become `foldlM` over
`List.range'`, preserving iteration order.  `WIDTH` and `HEIGHT` are the
parameters `W` and `H` throughout.  Each neighbor-count expression `n = ...`
of the source is its own small definition, in source read order.
-/

namespace GameOfLife

/-- A board: cell value at (row, column).  Row index is bounded by `HEIGHT`,
column index by `WIDTH`.  Cells hold small nonnegative integers (0/1 in use). -/
abbrev Board := Nat → Nat → Nat

/-- Pointwise functional update of a board at one cell. -/
def upd (b : Board) (r c v : Nat) : Board :=
  fun r' c' => if r' = r ∧ c' = c then v else b r' c'

/-- Bounds-checked read `b[r][c]` (C row index `< HEIGHT`, column `< WIDTH`). -/
def rd (W H : Nat) (b : Board) (r c : Nat) : Option Nat :=
  if r < H ∧ c < W then some (b r c) else none

/-- Bounds-checked write `b[r][c] = v`. -/
def wr (W H : Nat) (b : Board) (r c v : Nat) : Option Board :=
  if r < H ∧ c < W then some (upd b r c v) else none

/-- The cell-update expression of `Avery` (life.c lines 69, 72, 75, 78, 86, 93,
97, 103, 107): `nxt cell = ((k | n) == 3)`, with the C boolean converted to
an integer 1/0. -/
def lifeRule (k n : Nat) : Nat := if (k ||| n) == 3 then 1 else 0

/-- Neighbor count of the top-left corner, life.c line 68. -/
def cornerN1 (W H : Nat) (prv : Board) : Option Nat := do
  let a1 ← rd W H prv 0 1
  let a2 ← rd W H prv 1 1
  let a3 ← rd W H prv 1 0
  pure (a1 + a2 + a3)

/-- Neighbor count of the top-right corner, life.c line 71. -/
def cornerN2 (W H : Nat) (prv : Board) : Option Nat := do
  let a1 ← rd W H prv 0 (W - 2)
  let a2 ← rd W H prv 1 (W - 2)
  let a3 ← rd W H prv 1 (W - 1)
  pure (a1 + a2 + a3)

/-- Neighbor count used by the bottom-left corner update, life.c line 74
(reads rows `HEIGHT-2` and `HEIGHT-1`). -/
def cornerN3 (W H : Nat) (prv : Board) : Option Nat := do
  let a1 ← rd W H prv (H - 2) 0
  let a2 ← rd W H prv (H - 2) 1
  let a3 ← rd W H prv (H - 1) 1
  pure (a1 + a2 + a3)

/-- Neighbor count of the bottom-right corner, life.c line 77. -/
def cornerN4 (W H : Nat) (prv : Board) : Option Nat := do
  let a1 ← rd W H prv (H - 2) (W - 2)
  let a2 ← rd W H prv (H - 1) (W - 2)
  let a3 ← rd W H prv (H - 2) (W - 1)
  pure (a1 + a2 + a3)

/-- Top-left corner update, life.c lines 68-69. -/
def corner1 (W H : Nat) (prv nxt : Board) : Option Board := do
  let n ← cornerN1 W H prv
  let k ← rd W H prv 0 0
  wr W H nxt 0 0 (lifeRule k n)

/-- Top-right corner update, life.c lines 71-72. -/
def corner2 (W H : Nat) (prv nxt : Board) : Option Board := do
  let n ← cornerN2 W H prv
  let k ← rd W H prv 0 (W - 1)
  wr W H nxt 0 (W - 1) (lifeRule k n)

/-- Bottom-left corner update, life.c lines 74-75.  Note that the flag is read
from `prv[WIDTH-1][0]` and the result written to `nxt[WIDTH-1][0]`: `WIDTH-1`
is used as a row index, exactly as in the source. -/
def corner3 (W H : Nat) (prv nxt : Board) : Option Board := do
  let n ← cornerN3 W H prv
  let k ← rd W H prv (W - 1) 0
  wr W H nxt (W - 1) 0 (lifeRule k n)

/-- Bottom-right corner update, life.c lines 77-78. -/
def corner4 (W H : Nat) (prv nxt : Board) : Option Board := do
  let n ← cornerN4 W H prv
  let k ← rd W H prv (H - 1) (W - 1)
  wr W H nxt (H - 1) (W - 1) (lifeRule k n)

/-- The four corner updates of `Avery`, life.c lines 68-78, in source order. -/
def corners (W H : Nat) (prv nxt : Board) : Option Board := do
  let nxt ← corner1 W H prv nxt
  let nxt ← corner2 W H prv nxt
  let nxt ← corner3 W H prv nxt
  corner4 W H prv nxt

/-- Interior neighbor count, life.c lines 83-85, reads in source order. -/
def interiorN (W H : Nat) (prv : Board) (i j : Nat) : Option Nat := do
  let n1 ← rd W H prv (i - 1) (j - 1)
  let n2 ← rd W H prv (i - 1) j
  let n3 ← rd W H prv (i - 1) (j + 1)
  let n4 ← rd W H prv i (j - 1)
  let n5 ← rd W H prv i (j + 1)
  let n6 ← rd W H prv (i + 1) (j - 1)
  let n7 ← rd W H prv (i + 1) j
  let n8 ← rd W H prv (i + 1) (j + 1)
  pure (n1 + n2 + n3 + n4 + n5 + n6 + n7 + n8)

/-- Body of the inner interior loop, life.c lines 82-86 (cell `(i, j)`):
`k = prv[i][j]` first, then the neighbor sum, then the write. -/
def interiorBody (W H : Nat) (prv : Board) (i : Nat) (nxt : Board) (j : Nat) :
    Option Board := do
  let k ← rd W H prv i j
  let n ← interiorN W H prv i j
  wr W H nxt i j (lifeRule k n)

/-- One interior row: `for (j = 1; j < WIDTH-1; ++j)`, life.c line 81. -/
def interiorRow (W H : Nat) (prv : Board) (nxt : Board) (i : Nat) : Option Board :=
  (List.range' 1 (W - 1 - 1)).foldlM (interiorBody W H prv i) nxt

/-- Interior double loop: `for (i = 1; i < HEIGHT-1; ++i)`, life.c lines 80-88. -/
def interior (W H : Nat) (prv nxt : Board) : Option Board :=
  (List.range' 1 (H - 1 - 1)).foldlM (interiorRow W H prv) nxt

/-- Right-edge neighbor count, life.c lines 91-92. -/
def rightN (W H : Nat) (prv : Board) (i : Nat) : Option Nat := do
  let n1 ← rd W H prv (i - 1) (W - 1)
  let n2 ← rd W H prv (i + 1) (W - 1)
  let n3 ← rd W H prv (i + 1) (W - 2)
  let n4 ← rd W H prv (i - 1) (W - 2)
  let n5 ← rd W H prv i (W - 2)
  pure (n1 + n2 + n3 + n4 + n5)

/-- Left-edge neighbor count, life.c lines 95-96. -/
def leftN (W H : Nat) (prv : Board) (i : Nat) : Option Nat := do
  let n1 ← rd W H prv (i - 1) 1
  let n2 ← rd W H prv (i + 1) 1
  let n3 ← rd W H prv i 1
  let n4 ← rd W H prv (i - 1) 0
  let n5 ← rd W H prv (i + 1) 0
  pure (n1 + n2 + n3 + n4 + n5)

/-- Body of the left/right edge loop, life.c lines 91-97: right edge cell
`(i, WIDTH-1)` first, then left edge cell `(i, 0)`. -/
def lrBody (W H : Nat) (prv : Board) (nxt : Board) (i : Nat) : Option Board := do
  let nr ← rightN W H prv i
  let kr ← rd W H prv i (W - 1)
  let nxt ← wr W H nxt i (W - 1) (lifeRule kr nr)
  let nl ← leftN W H prv i
  let kl ← rd W H prv i 0
  wr W H nxt i 0 (lifeRule kl nl)

/-- Left/right edge loop, life.c lines 90-98. -/
def lrEdges (W H : Nat) (prv nxt : Board) : Option Board :=
  (List.range' 1 (H - 1 - 1)).foldlM (lrBody W H prv) nxt

/-- Bottom-edge neighbor count, life.c lines 101-102. -/
def botN (W H : Nat) (prv : Board) (j : Nat) : Option Nat := do
  let n1 ← rd W H prv (H - 1) (j - 1)
  let n2 ← rd W H prv (H - 1) (j + 1)
  let n3 ← rd W H prv (H - 2) j
  let n4 ← rd W H prv (H - 2) (j - 1)
  let n5 ← rd W H prv (H - 2) (j + 1)
  pure (n1 + n2 + n3 + n4 + n5)

/-- Top-edge neighbor count, life.c lines 105-106. -/
def topN (W H : Nat) (prv : Board) (j : Nat) : Option Nat := do
  let n1 ← rd W H prv 1 (j - 1)
  let n2 ← rd W H prv 1 (j + 1)
  let n3 ← rd W H prv 1 j
  let n4 ← rd W H prv 0 (j - 1)
  let n5 ← rd W H prv 0 (j + 1)
  pure (n1 + n2 + n3 + n4 + n5)

/-- Body of the top/bottom edge loop, life.c lines 101-107: bottom edge cell
`(HEIGHT-1, j)` first, then top edge cell `(0, j)`. -/
def tbBody (W H : Nat) (prv : Board) (nxt : Board) (j : Nat) : Option Board := do
  let nb ← botN W H prv j
  let kb ← rd W H prv (H - 1) j
  let nxt ← wr W H nxt (H - 1) j (lifeRule kb nb)
  let nt ← topN W H prv j
  let kt ← rd W H prv 0 j
  wr W H nxt 0 j (lifeRule kt nt)

/-- Top/bottom edge loop, life.c lines 100-108. -/
def tbEdges (W H : Nat) (prv nxt : Board) : Option Board :=
  (List.range' 1 (W - 1 - 1)).foldlM (tbBody W H prv) nxt

/-- The function `Avery` of life.c lines 63-109: four corner updates, the
interior double loop, the left/right edge loop, and the top/bottom edge loop,
in source order, writing into the caller-supplied buffer `nxt`. -/
def Avery (W H : Nat) (prv nxt : Board) : Option Board := do
  let nxt ← corners W H prv nxt
  let nxt ← interior W H prv nxt
  let nxt ← lrEdges W H prv nxt
  tbEdges W H prv nxt

/-! ### Naive bounds-checked reference implementation

This second definition follows the specification's words (spec section 8,
"Equivalence to brute force"): each cell's live-neighbor count is computed by
summing only the in-bounds cells among the 8 neighbor offsets, with explicit
bounds checks, and the B3/S23 rule is applied in its direct form. -/

/-- The 8 neighbor offsets (row offset, column offset). -/
def offsets : List (Int × Int) :=
  [(-1, -1), (-1, 0), (-1, 1), (0, -1), (0, 1), (1, -1), (1, 0), (1, 1)]

/-- Bounds-checked read at integer coordinates; out-of-bounds cells count 0. -/
def getB (W H : Nat) (b : Board) (r c : Int) : Nat :=
  if 0 ≤ r ∧ r < (H : Int) ∧ 0 ≤ c ∧ c < (W : Int) then b r.toNat c.toNat else 0

/-- Live-neighbor count of cell `(r, c)`: sum over the in-bounds offsets. -/
def neigh (W H : Nat) (b : Board) (r c : Nat) : Nat :=
  (offsets.map (fun d => getB W H b ((r : Int) + d.1) ((c : Int) + d.2))).sum

/-- The B3/S23 rule in its direct form: a live cell survives with 2 or 3 live
neighbors, a dead cell is born with exactly 3, otherwise the cell is dead. -/
def b3s23 (alive n : Nat) : Nat :=
  if alive = 1 then (if n = 2 ∨ n = 3 then 1 else 0)
  else (if n = 3 then 1 else 0)

/-- The naive reference next state of cell `(r, c)`. -/
def naiveNext (W H : Nat) (prv : Board) (r c : Nat) : Nat :=
  b3s23 (prv r c) (neigh W H prv r c)

/-! ### The `main` function, life.c lines 115-126

The externals from `liblife.a` (`add_method`, `run_game`) and the `fprintf`
to standard error are recorded as effect flags in the result. -/

/-- C standard exit status for success. -/
def EXIT_SUCCESS : Nat := 0

/-- C standard exit status for failure. -/
def EXIT_FAILURE : Nat := 1

/-- Observable outcome of `main`: exit status, whether the usage message was
printed to standard error, whether the method was registered via `add_method`,
whether `run_game` ran, and the `no window` flag passed to `run_game`. -/
structure MainResult where
  exit : Nat
  usage : Bool
  registered : Bool
  ran : Bool
  noWindow : Bool
  deriving Repr, DecidableEq

/-- The function `main` of life.c lines 115-126: reject `argc > 2`, and
`argc == 2` with an argument other than `"-nw"`; otherwise register the
method and run the game, windowing disabled exactly when `"-nw"` was given. -/
def lifeMain (argv : List String) : MainResult :=
  let argc := argv.length
  if argc > 2 ∨ (argc = 2 ∧ argv.getD 1 "" ≠ "-nw") then
    { exit := EXIT_FAILURE, usage := true, registered := false, ran := false,
      noWindow := false }
  else
    { exit := EXIT_SUCCESS, usage := false, registered := true, ran := true,
      noWindow := decide (argc = 2 ∧ argv.getD 1 "" = "-nw") }

/-! ### The set of cells written by `Avery`'s five regions

`writes W H` lists the target cells of every write `Avery` performs, in source
order: the four corners (lines 69, 72, 75, 78), the interior loop (line 86),
the left/right edge loop (lines 93 and 97) and the top/bottom edge loop
(lines 103 and 107). -/

/-- Every cell (row, column) written by `Avery`, with multiplicity. -/
def writes (W H : Nat) : List (Nat × Nat) :=
  [(0, 0), (0, W - 1), (W - 1, 0), (H - 1, W - 1)]
    ++ (List.range' 1 (H - 1 - 1)).flatMap
        (fun i => (List.range' 1 (W - 1 - 1)).map (fun j => (i, j)))
    ++ (List.range' 1 (H - 1 - 1)).flatMap (fun i => [(i, W - 1), (i, 0)])
    ++ (List.range' 1 (W - 1 - 1)).flatMap (fun j => [(H - 1, j), (0, j)])

/-! ### State-passing variant for the frame property

For the claim that `Avery` does not mutate `previous`, the store is made
explicit: the state is the pair `(prv, nxt)` of the two caller-owned buffers,
reads of `prv[i][j]` go through the first component, writes of `nxt[i][j]`
through the second, following the source line by line as above. -/

/-- Read `prv[r][c]` from the explicit store. -/
def rdS (W H : Nat) (s : Board × Board) (r c : Nat) : Option Nat :=
  if r < H ∧ c < W then some (s.1 r c) else none

/-- Write `nxt[r][c] = v` in the explicit store. -/
def wrS (W H : Nat) (s : Board × Board) (r c v : Nat) : Option (Board × Board) :=
  if r < H ∧ c < W then some (s.1, upd s.2 r c v) else none

/-- Top-left corner update (life.c lines 68-69) on the explicit store. -/
def corner1S (W H : Nat) (s : Board × Board) : Option (Board × Board) := do
  let a1 ← rdS W H s 0 1
  let a2 ← rdS W H s 1 1
  let a3 ← rdS W H s 1 0
  let k ← rdS W H s 0 0
  wrS W H s 0 0 (lifeRule k (a1 + a2 + a3))

/-- Top-right corner update (life.c lines 71-72) on the explicit store. -/
def corner2S (W H : Nat) (s : Board × Board) : Option (Board × Board) := do
  let a1 ← rdS W H s 0 (W - 2)
  let a2 ← rdS W H s 1 (W - 2)
  let a3 ← rdS W H s 1 (W - 1)
  let k ← rdS W H s 0 (W - 1)
  wrS W H s 0 (W - 1) (lifeRule k (a1 + a2 + a3))

/-- Bottom-left corner update (life.c lines 74-75) on the explicit store. -/
def corner3S (W H : Nat) (s : Board × Board) : Option (Board × Board) := do
  let a1 ← rdS W H s (H - 2) 0
  let a2 ← rdS W H s (H - 2) 1
  let a3 ← rdS W H s (H - 1) 1
  let k ← rdS W H s (W - 1) 0
  wrS W H s (W - 1) 0 (lifeRule k (a1 + a2 + a3))

/-- Bottom-right corner update (life.c lines 77-78) on the explicit store. -/
def corner4S (W H : Nat) (s : Board × Board) : Option (Board × Board) := do
  let a1 ← rdS W H s (H - 2) (W - 2)
  let a2 ← rdS W H s (H - 1) (W - 2)
  let a3 ← rdS W H s (H - 2) (W - 1)
  let k ← rdS W H s (H - 1) (W - 1)
  wrS W H s (H - 1) (W - 1) (lifeRule k (a1 + a2 + a3))

/-- Interior neighbor sum (life.c lines 83-85) on the explicit store. -/
def interiorNS (W H : Nat) (s : Board × Board) (i j : Nat) : Option Nat := do
  let n1 ← rdS W H s (i - 1) (j - 1)
  let n2 ← rdS W H s (i - 1) j
  let n3 ← rdS W H s (i - 1) (j + 1)
  let n4 ← rdS W H s i (j - 1)
  let n5 ← rdS W H s i (j + 1)
  let n6 ← rdS W H s (i + 1) (j - 1)
  let n7 ← rdS W H s (i + 1) j
  let n8 ← rdS W H s (i + 1) (j + 1)
  pure (n1 + n2 + n3 + n4 + n5 + n6 + n7 + n8)

/-- Interior loop body (life.c lines 82-86) on the explicit store. -/
def interiorBodyS (W H i : Nat) (s : Board × Board) (j : Nat) :
    Option (Board × Board) := do
  let k ← rdS W H s i j
  let n ← interiorNS W H s i j
  wrS W H s i j (lifeRule k n)

/-- Right-edge update (life.c lines 91-93) on the explicit store. -/
def rightS (W H : Nat) (s : Board × Board) (i : Nat) : Option (Board × Board) := do
  let n1 ← rdS W H s (i - 1) (W - 1)
  let n2 ← rdS W H s (i + 1) (W - 1)
  let n3 ← rdS W H s (i + 1) (W - 2)
  let n4 ← rdS W H s (i - 1) (W - 2)
  let n5 ← rdS W H s i (W - 2)
  let k ← rdS W H s i (W - 1)
  wrS W H s i (W - 1) (lifeRule k (n1 + n2 + n3 + n4 + n5))

/-- Left-edge update (life.c lines 95-97) on the explicit store. -/
def leftS (W H : Nat) (s : Board × Board) (i : Nat) : Option (Board × Board) := do
  let n1 ← rdS W H s (i - 1) 1
  let n2 ← rdS W H s (i + 1) 1
  let n3 ← rdS W H s i 1
  let n4 ← rdS W H s (i - 1) 0
  let n5 ← rdS W H s (i + 1) 0
  let k ← rdS W H s i 0
  wrS W H s i 0 (lifeRule k (n1 + n2 + n3 + n4 + n5))

/-- Left/right edge loop body (life.c lines 91-97) on the explicit store. -/
def lrBodyS (W H : Nat) (s : Board × Board) (i : Nat) : Option (Board × Board) := do
  let s ← rightS W H s i
  leftS W H s i

/-- Bottom-edge update (life.c lines 101-103) on the explicit store. -/
def botS (W H : Nat) (s : Board × Board) (j : Nat) : Option (Board × Board) := do
  let n1 ← rdS W H s (H - 1) (j - 1)
  let n2 ← rdS W H s (H - 1) (j + 1)
  let n3 ← rdS W H s (H - 2) j
  let n4 ← rdS W H s (H - 2) (j - 1)
  let n5 ← rdS W H s (H - 2) (j + 1)
  let k ← rdS W H s (H - 1) j
  wrS W H s (H - 1) j (lifeRule k (n1 + n2 + n3 + n4 + n5))

/-- Top-edge update (life.c lines 105-107) on the explicit store. -/
def topS (W H : Nat) (s : Board × Board) (j : Nat) : Option (Board × Board) := do
  let n1 ← rdS W H s 1 (j - 1)
  let n2 ← rdS W H s 1 (j + 1)
  let n3 ← rdS W H s 1 j
  let n4 ← rdS W H s 0 (j - 1)
  let n5 ← rdS W H s 0 (j + 1)
  let k ← rdS W H s 0 j
  wrS W H s 0 j (lifeRule k (n1 + n2 + n3 + n4 + n5))

/-- Top/bottom edge loop body (life.c lines 101-107) on the explicit store. -/
def tbBodyS (W H : Nat) (s : Board × Board) (j : Nat) : Option (Board × Board) := do
  let s ← botS W H s j
  topS W H s j

/-- The function `Avery` on the explicit two-buffer store. -/
def AveryS (W H : Nat) (s : Board × Board) : Option (Board × Board) := do
  let s ← corner1S W H s
  let s ← corner2S W H s
  let s ← corner3S W H s
  let s ← corner4S W H s
  let s ← (List.range' 1 (H - 1 - 1)).foldlM
      (fun s i => (List.range' 1 (W - 1 - 1)).foldlM (interiorBodyS W H i) s) s
  let s ← (List.range' 1 (H - 1 - 1)).foldlM (lrBodyS W H) s
  (List.range' 1 (W - 1 - 1)).foldlM (tbBodyS W H) s

/-! ### Concrete boards used as test inputs and counterexample inputs -/

/-- The all-dead board. -/
def zeroB : Board := fun _ _ => 0

/-- The all-ones board (stands for an output buffer holding stale data). -/
def oneB : Board := fun _ _ => 1

/-- Board with a single live cell at (1, 1). -/
def ind11 : Board := fun r c => if r = 1 ∧ c = 1 then 1 else 0

/-- Board (for WIDTH = 3, HEIGHT = 4) whose naive successor births the
bottom-left corner cell (3, 0): live cells at (2, 0), (2, 1) and (3, 1). -/
def prvC1 : Board :=
  fun r c => if (r = 2 ∧ c = 0) ∨ (r = 2 ∧ c = 1) ∨ (r = 3 ∧ c = 1) then 1 else 0

/-- Board with a single live cell at the corner (0, 0). -/
def ind00 : Board := fun r c => if r = 0 ∧ c = 0 then 1 else 0

/-! ### Basic access lemmas -/

theorem rd_in {W H : Nat} (b : Board) {r c : Nat} (h1 : r < H) (h2 : c < W) :
    rd W H b r c = some (b r c) := by
  simp [rd, h1, h2]

theorem rd_out {W H : Nat} (b : Board) {r c : Nat} (h : ¬(r < H ∧ c < W)) :
    rd W H b r c = none := by
  simp [rd, h]

theorem wr_in {W H : Nat} (b : Board) {r c : Nat} (v : Nat) (h1 : r < H)
    (h2 : c < W) : wr W H b r c v = some (upd b r c v) := by
  simp [wr, h1, h2]

theorem upd_apply (b : Board) (r c v r' c' : Nat) :
    upd b r c v r' c' = if r' = r ∧ c' = c then v else b r' c' := rfl

/-- A monadic fold whose body always succeeds equals the pure fold. -/
theorem foldlM_of_eq_some {α β : Type} {f : β → α → Option β} {g : β → α → β}
    {L : List α} (h : ∀ b a, a ∈ L → f b a = some (g b a)) :
    ∀ b : β, L.foldlM f b = some (L.foldl g b) := by
  induction L with
  | nil => intro b; rfl
  | cons x xs ih =>
    intro b
    rw [List.foldlM_cons, h b x (List.mem_cons_self x xs), List.foldl_cons]
    exact ih (fun b a ha => h b a (List.mem_cons_of_mem x ha)) (g b x)

/-! ### Pure per-cell values computed by each region of `Avery`

Each value below is the result `lifeRule flag n` with the flag cell and the
neighbor-sum reads of the corresponding source lines. -/

/-- Value written to `nxt[0][0]`, life.c lines 68-69. -/
def cornerTLVal (prv : Board) : Nat :=
  lifeRule (prv 0 0) (prv 0 1 + prv 1 1 + prv 1 0)

/-- Value written to `nxt[0][WIDTH-1]`, life.c lines 71-72. -/
def cornerTRVal (W : Nat) (prv : Board) : Nat :=
  lifeRule (prv 0 (W - 1)) (prv 0 (W - 2) + prv 1 (W - 2) + prv 1 (W - 1))

/-- Value written to `nxt[WIDTH-1][0]`, life.c lines 74-75. -/
def cornerBLVal (W H : Nat) (prv : Board) : Nat :=
  lifeRule (prv (W - 1) 0) (prv (H - 2) 0 + prv (H - 2) 1 + prv (H - 1) 1)

/-- Value written to `nxt[HEIGHT-1][WIDTH-1]`, life.c lines 77-78. -/
def cornerBRVal (W H : Nat) (prv : Board) : Nat :=
  lifeRule (prv (H - 1) (W - 1))
    (prv (H - 2) (W - 2) + prv (H - 1) (W - 2) + prv (H - 2) (W - 1))

/-- Value written to `nxt[i][j]` by the interior loop, life.c lines 82-86. -/
def interiorVal (prv : Board) (i j : Nat) : Nat :=
  lifeRule (prv i j)
    (prv (i - 1) (j - 1) + prv (i - 1) j + prv (i - 1) (j + 1)
      + prv i (j - 1) + prv i (j + 1) + prv (i + 1) (j - 1)
      + prv (i + 1) j + prv (i + 1) (j + 1))

/-- Value written to `nxt[i][WIDTH-1]`, life.c lines 91-93. -/
def rightVal (W : Nat) (prv : Board) (i : Nat) : Nat :=
  lifeRule (prv i (W - 1))
    (prv (i - 1) (W - 1) + prv (i + 1) (W - 1) + prv (i + 1) (W - 2)
      + prv (i - 1) (W - 2) + prv i (W - 2))

/-- Value written to `nxt[i][0]`, life.c lines 95-97. -/
def leftVal (prv : Board) (i : Nat) : Nat :=
  lifeRule (prv i 0)
    (prv (i - 1) 1 + prv (i + 1) 1 + prv i 1 + prv (i - 1) 0 + prv (i + 1) 0)

/-- Value written to `nxt[HEIGHT-1][j]`, life.c lines 101-103. -/
def botVal (H : Nat) (prv : Board) (j : Nat) : Nat :=
  lifeRule (prv (H - 1) j)
    (prv (H - 1) (j - 1) + prv (H - 1) (j + 1) + prv (H - 2) j
      + prv (H - 2) (j - 1) + prv (H - 2) (j + 1))

/-- Value written to `nxt[0][j]`, life.c lines 105-107. -/
def topVal (prv : Board) (j : Nat) : Nat :=
  lifeRule (prv 0 j)
    (prv 1 (j - 1) + prv 1 (j + 1) + prv 1 j + prv 0 (j - 1) + prv 0 (j + 1))

/-! ### Success of each region under the precondition `3 ≤ W ≤ H` -/

theorem corner1_eq {W H : Nat} (prv nxt : Board) (hW : 3 ≤ W) (hWH : W ≤ H) :
    corner1 W H prv nxt = some (upd nxt 0 0 (cornerTLVal prv)) := by
  simp (disch := omega) [corner1, cornerN1, rd_in, wr_in, cornerTLVal]

theorem corner2_eq {W H : Nat} (prv nxt : Board) (hW : 3 ≤ W) (hWH : W ≤ H) :
    corner2 W H prv nxt = some (upd nxt 0 (W - 1) (cornerTRVal W prv)) := by
  simp (disch := omega) [corner2, cornerN2, rd_in, wr_in, cornerTRVal]

theorem corner3_eq {W H : Nat} (prv nxt : Board) (hW : 3 ≤ W) (hWH : W ≤ H) :
    corner3 W H prv nxt = some (upd nxt (W - 1) 0 (cornerBLVal W H prv)) := by
  simp (disch := omega) [corner3, cornerN3, rd_in, wr_in, cornerBLVal]

theorem corner4_eq {W H : Nat} (prv nxt : Board) (hW : 3 ≤ W) (hWH : W ≤ H) :
    corner4 W H prv nxt = some (upd nxt (H - 1) (W - 1) (cornerBRVal W H prv)) := by
  simp (disch := omega) [corner4, cornerN4, rd_in, wr_in, cornerBRVal]

theorem corners_eq {W H : Nat} (prv nxt : Board) (hW : 3 ≤ W) (hWH : W ≤ H) :
    corners W H prv nxt
      = some (upd (upd (upd (upd nxt 0 0 (cornerTLVal prv))
          0 (W - 1) (cornerTRVal W prv)) (W - 1) 0 (cornerBLVal W H prv))
            (H - 1) (W - 1) (cornerBRVal W H prv)) := by
  simp [corners, corner1_eq prv nxt hW hWH, corner2_eq, corner3_eq, corner4_eq,
    hW, hWH]

theorem interiorBody_eq {W H : Nat} (prv : Board) {i j : Nat} (nxt : Board)
    (hW : 3 ≤ W) (hWH : W ≤ H) (hi1 : 1 ≤ i) (hi2 : i ≤ H - 2) (hj1 : 1 ≤ j)
    (hj2 : j ≤ W - 2) :
    interiorBody W H prv i nxt j = some (upd nxt i j (interiorVal prv i j)) := by
  simp (disch := omega) [interiorBody, interiorN, rd_in, wr_in, interiorVal]

theorem lrBody_eq {W H : Nat} (prv : Board) (nxt : Board) {i : Nat}
    (hW : 3 ≤ W) (hWH : W ≤ H) (hi1 : 1 ≤ i) (hi2 : i ≤ H - 2) :
    lrBody W H prv nxt i
      = some (upd (upd nxt i (W - 1) (rightVal W prv i)) i 0 (leftVal prv i)) := by
  simp (disch := omega) [lrBody, rightN, leftN, rd_in, wr_in, rightVal, leftVal]

theorem tbBody_eq {W H : Nat} (prv : Board) (nxt : Board) {j : Nat}
    (hW : 3 ≤ W) (hWH : W ≤ H) (hj1 : 1 ≤ j) (hj2 : j ≤ W - 2) :
    tbBody W H prv nxt j
      = some (upd (upd nxt (H - 1) j (botVal H prv j)) 0 j (topVal prv j)) := by
  simp (disch := omega) [tbBody, botN, topN, rd_in, wr_in, botVal, topVal]

/-! ### Pure versions of the three loops and their pointwise behavior -/

/-- Pure interior double loop. -/
def intFold (W H : Nat) (prv b : Board) : Board :=
  (List.range' 1 (H - 1 - 1)).foldl
    (fun b i => (List.range' 1 (W - 1 - 1)).foldl
      (fun b j => upd b i j (interiorVal prv i j)) b) b

/-- Pure left/right edge loop. -/
def lrFold (W H : Nat) (prv b : Board) : Board :=
  (List.range' 1 (H - 1 - 1)).foldl
    (fun b i => upd (upd b i (W - 1) (rightVal W prv i)) i 0 (leftVal prv i)) b

/-- Pure top/bottom edge loop. -/
def tbFold (W H : Nat) (prv b : Board) : Board :=
  (List.range' 1 (W - 1 - 1)).foldl
    (fun b j => upd (upd b (H - 1) j (botVal H prv j)) 0 j (topVal prv j)) b

theorem interiorRow_eq {W H : Nat} (prv : Board) {i : Nat} (hW : 3 ≤ W)
    (hWH : W ≤ H) (hi1 : 1 ≤ i) (hi2 : i ≤ H - 2) (b : Board) :
    interiorRow W H prv b i
      = some ((List.range' 1 (W - 1 - 1)).foldl
          (fun b j => upd b i j (interiorVal prv i j)) b) := by
  apply foldlM_of_eq_some
  intro b j hj
  rw [List.mem_range'_1] at hj
  exact interiorBody_eq prv b hW hWH hi1 hi2 (by omega) (by omega)

theorem interior_eq {W H : Nat} (prv : Board) (hW : 3 ≤ W) (hWH : W ≤ H)
    (b : Board) : interior W H prv b = some (intFold W H prv b) := by
  apply foldlM_of_eq_some
  intro b i hi
  rw [List.mem_range'_1] at hi
  exact interiorRow_eq prv hW hWH (by omega) (by omega) b

theorem lrEdges_eq {W H : Nat} (prv : Board) (hW : 3 ≤ W) (hWH : W ≤ H)
    (b : Board) : lrEdges W H prv b = some (lrFold W H prv b) := by
  apply foldlM_of_eq_some
  intro b i hi
  rw [List.mem_range'_1] at hi
  exact lrBody_eq prv b hW hWH (by omega) (by omega)

theorem tbEdges_eq {W H : Nat} (prv : Board) (hW : 3 ≤ W) (hWH : W ≤ H)
    (b : Board) : tbEdges W H prv b = some (tbFold W H prv b) := by
  apply foldlM_of_eq_some
  intro b j hj
  rw [List.mem_range'_1] at hj
  exact tbBody_eq prv b hW hWH (by omega) (by omega)

/-- Pointwise value of a fold writing one row segment. -/
theorem foldl_upd_row_apply (v : Nat → Nat) (i : Nat) :
    ∀ (n s : Nat) (b : Board) (r c : Nat),
      ((List.range' s n).foldl (fun b j => upd b i j (v j)) b) r c
        = if r = i ∧ s ≤ c ∧ c < s + n then v c else b r c := by
  intro n
  induction n with
  | zero =>
    intro s b r c
    rw [List.range'_zero, List.foldl_nil, if_neg (by omega)]
  | succ n ih =>
    intro s b r c
    rw [List.range'_succ, List.foldl_cons, ih (s + 1)]
    by_cases h1 : r = i ∧ s + 1 ≤ c ∧ c < s + 1 + n
    · rw [if_pos h1, if_pos (by omega)]
    · rw [if_neg h1, upd_apply]
      by_cases h2 : r = i ∧ c = s
      · rw [if_pos h2, if_pos (by omega), h2.2]
      · rw [if_neg h2, if_neg (by omega)]

/-- Pointwise value of a nested row-by-row rectangular fold. -/
theorem foldl_rows_apply (v : Nat → Nat → Nat) (m : Nat) :
    ∀ (n s : Nat) (b : Board) (r c : Nat),
      ((List.range' s n).foldl
        (fun b i => (List.range' 1 m).foldl (fun b j => upd b i j (v i j)) b) b) r c
        = if s ≤ r ∧ r < s + n ∧ 1 ≤ c ∧ c < 1 + m then v r c else b r c := by
  intro n
  induction n with
  | zero =>
    intro s b r c
    rw [List.range'_zero, List.foldl_nil, if_neg (by omega)]
  | succ n ih =>
    intro s b r c
    rw [List.range'_succ, List.foldl_cons, ih (s + 1)]
    by_cases h1 : s + 1 ≤ r ∧ r < s + 1 + n ∧ 1 ≤ c ∧ c < 1 + m
    · rw [if_pos h1, if_pos (by omega)]
    · rw [if_neg h1, foldl_upd_row_apply]
      by_cases h2 : r = s ∧ 1 ≤ c ∧ c < 1 + m
      · rw [if_pos h2, if_pos (by omega), h2.1]
      · rw [if_neg h2, if_neg (by omega)]

/-- Pointwise value of a fold writing a left and a right column segment. -/
theorem foldl_lr_apply (vr vl : Nat → Nat) (p : Nat) (hp : p ≠ 0) :
    ∀ (n s : Nat) (b : Board) (r c : Nat),
      ((List.range' s n).foldl (fun b i => upd (upd b i p (vr i)) i 0 (vl i)) b) r c
        = if s ≤ r ∧ r < s + n ∧ c = 0 then vl r
          else if s ≤ r ∧ r < s + n ∧ c = p then vr r
          else b r c := by
  intro n
  induction n with
  | zero =>
    intro s b r c
    rw [List.range'_zero, List.foldl_nil, if_neg (by omega), if_neg (by omega)]
  | succ n ih =>
    intro s b r c
    rw [List.range'_succ, List.foldl_cons, ih (s + 1)]
    by_cases hr : r = s
    · subst hr
      rw [if_neg (by omega), if_neg (by omega), upd_apply]
      by_cases hc0 : c = 0
      · rw [if_pos (by exact ⟨rfl, hc0⟩), if_pos (by omega)]
      · rw [if_neg (by omega), upd_apply]
        by_cases hcp : c = p
        · rw [if_pos (by exact ⟨rfl, hcp⟩), if_neg (by omega), if_pos (by omega)]
        · rw [if_neg (by omega), if_neg (by omega), if_neg (by omega)]
    · by_cases h1 : s + 1 ≤ r ∧ r < s + 1 + n ∧ c = 0
      · rw [if_pos h1, if_pos (by omega)]
      · rw [if_neg h1]
        by_cases h2 : s + 1 ≤ r ∧ r < s + 1 + n ∧ c = p
        · rw [if_pos h2, if_neg (by omega), if_pos (by omega)]
        · rw [if_neg h2, upd_apply, if_neg (by omega), upd_apply,
            if_neg (by omega), if_neg (by omega), if_neg (by omega)]

/-- Pointwise value of a fold writing a top and a bottom row segment. -/
theorem foldl_tb_apply (vb vt : Nat → Nat) (q : Nat) (hq : q ≠ 0) :
    ∀ (n s : Nat) (b : Board) (r c : Nat),
      ((List.range' s n).foldl (fun b j => upd (upd b q j (vb j)) 0 j (vt j)) b) r c
        = if r = 0 ∧ s ≤ c ∧ c < s + n then vt c
          else if r = q ∧ s ≤ c ∧ c < s + n then vb c
          else b r c := by
  intro n
  induction n with
  | zero =>
    intro s b r c
    rw [List.range'_zero, List.foldl_nil, if_neg (by omega), if_neg (by omega)]
  | succ n ih =>
    intro s b r c
    rw [List.range'_succ, List.foldl_cons, ih (s + 1)]
    by_cases hc : c = s
    · subst hc
      rw [if_neg (by omega), if_neg (by omega), upd_apply]
      by_cases hr0 : r = 0
      · rw [if_pos (by exact ⟨hr0, rfl⟩), if_pos (by omega)]
      · rw [if_neg (by omega), upd_apply]
        by_cases hrq : r = q
        · rw [if_pos (by exact ⟨hrq, rfl⟩), if_neg (by omega), if_pos (by omega)]
        · rw [if_neg (by omega), if_neg (by omega), if_neg (by omega)]
    · by_cases h1 : r = 0 ∧ s + 1 ≤ c ∧ c < s + 1 + n
      · rw [if_pos h1, if_pos (by omega)]
      · rw [if_neg h1]
        by_cases h2 : r = q ∧ s + 1 ≤ c ∧ c < s + 1 + n
        · rw [if_pos h2, if_neg (by omega), if_pos (by omega)]
        · rw [if_neg h2, upd_apply, if_neg (by omega), upd_apply,
            if_neg (by omega), if_neg (by omega), if_neg (by omega)]

/-! ### Closed-form description of the board `Avery` produces -/

/-- The output board of `Avery` in closed form: the five regions in reverse
write order (later writes shadow earlier ones), over the initial buffer. -/
def averyOut (W H : Nat) (prv nxt : Board) : Board := fun r c =>
  if r = 0 ∧ 1 ≤ c ∧ c < 1 + (W - 1 - 1) then topVal prv c
  else if r = H - 1 ∧ 1 ≤ c ∧ c < 1 + (W - 1 - 1) then botVal H prv c
  else if 1 ≤ r ∧ r < 1 + (H - 1 - 1) ∧ c = 0 then leftVal prv r
  else if 1 ≤ r ∧ r < 1 + (H - 1 - 1) ∧ c = W - 1 then rightVal W prv r
  else if 1 ≤ r ∧ r < 1 + (H - 1 - 1) ∧ 1 ≤ c ∧ c < 1 + (W - 1 - 1) then
    interiorVal prv r c
  else
    upd (upd (upd (upd nxt 0 0 (cornerTLVal prv)) 0 (W - 1) (cornerTRVal W prv))
      (W - 1) 0 (cornerBLVal W H prv)) (H - 1) (W - 1) (cornerBRVal W H prv) r c

theorem Avery_eq_averyOut {W H : Nat} (prv nxt : Board) (hW : 3 ≤ W)
    (hWH : W ≤ H) : Avery W H prv nxt = some (averyOut W H prv nxt) := by
  have hcomp : tbFold W H prv (lrFold W H prv (intFold W H prv
      (upd (upd (upd (upd nxt 0 0 (cornerTLVal prv)) 0 (W - 1) (cornerTRVal W prv))
        (W - 1) 0 (cornerBLVal W H prv)) (H - 1) (W - 1) (cornerBRVal W H prv))))
      = averyOut W H prv nxt := by
    funext r c
    rw [tbFold, foldl_tb_apply _ _ _ (by omega), lrFold,
      foldl_lr_apply _ _ _ (by omega), intFold, foldl_rows_apply, averyOut]
  simp [Avery, corners_eq prv nxt hW hWH, interior_eq prv hW hWH,
    lrEdges_eq prv hW hWH, tbEdges_eq prv hW hWH, hcomp]

/-! ### Neighbor counts of the naive reference, region by region -/

theorem getB_in {W H : Nat} (b : Board) {r c : Int} (h1 : 0 ≤ r)
    (h2 : r < (H : Int)) (h3 : 0 ≤ c) (h4 : c < (W : Int)) :
    getB W H b r c = b r.toNat c.toNat := by
  simp [getB, h1, h2, h3, h4]

theorem getB_out {W H : Nat} (b : Board) {r c : Int}
    (h : ¬(0 ≤ r ∧ r < (H : Int) ∧ 0 ≤ c ∧ c < (W : Int))) :
    getB W H b r c = 0 := by
  simp [getB, h]

theorem getB_le_one {W H : Nat} (b : Board)
    (h01 : ∀ r c, r < H → c < W → b r c ≤ 1) (r c : Int) : getB W H b r c ≤ 1 := by
  by_cases h : 0 ≤ r ∧ r < (H : Int) ∧ 0 ≤ c ∧ c < (W : Int)
  · rw [getB_in b h.1 h.2.1 h.2.2.1 h.2.2.2]
    exact h01 _ _ (by omega) (by omega)
  · rw [getB_out b h]
    omega

/-- A board with cells bounded by 1 has every neighbor count bounded by 8. -/
theorem neigh_le_8 {W H : Nat} (prv : Board)
    (h01 : ∀ r c, r < H → c < W → prv r c ≤ 1) (r c : Nat) :
    neigh W H prv r c ≤ 8 := by
  rw [neigh]
  have hb : ∀ x ∈ offsets.map
      (fun d => getB W H prv ((r : Int) + d.1) ((c : Int) + d.2)), x ≤ 1 := by
    intro x hx
    rcases List.mem_map.mp hx with ⟨d, _, rfl⟩
    exact getB_le_one prv h01 _ _
  have hs := List.sum_le_card_nsmul _ 1 hb
  simpa [offsets] using hs

/-- On 0/1 flags and neighbor counts up to 8, the bit trick of the source
computes exactly the direct B3/S23 rule. -/
theorem lifeRule_eq_b3s23 {k n : Nat} (hk : k ≤ 1) (hn : n ≤ 8) :
    lifeRule k n = b3s23 k n := by
  interval_cases k <;> interval_cases n <;> decide

theorem neigh_TL {W H : Nat} (prv : Board) (hW : 3 ≤ W) (hH : 3 ≤ H) :
    neigh W H prv 0 0 = prv 0 1 + prv 1 0 + prv 1 1 := by
  simp (disch := omega) [neigh, offsets, getB_in, getB_out]
  ring

theorem neigh_TR {W H : Nat} (prv : Board) (hW : 3 ≤ W) (hH : 3 ≤ H) :
    neigh W H prv 0 (W - 1)
      = prv 0 (W - 2) + prv 1 (W - 2) + prv 1 (W - 1) := by
  simp (disch := omega) [neigh, offsets, getB_in, getB_out]
  have ec : ((W : Int) - 1 + -1).toNat = W - 2 := by omega
  rw [ec]
  ring

theorem neigh_BL {W H : Nat} (prv : Board) (hW : 3 ≤ W) (hH : 3 ≤ H) :
    neigh W H prv (H - 1) 0
      = prv (H - 2) 0 + prv (H - 2) 1 + prv (H - 1) 1 := by
  simp (disch := omega) [neigh, offsets, getB_in, getB_out]
  have er : ((H : Int) - 1 + -1).toNat = H - 2 := by omega
  rw [er]
  ring

theorem neigh_BR {W H : Nat} (prv : Board) (hW : 3 ≤ W) (hH : 3 ≤ H) :
    neigh W H prv (H - 1) (W - 1)
      = prv (H - 2) (W - 2) + prv (H - 1) (W - 2) + prv (H - 2) (W - 1) := by
  simp (disch := omega) [neigh, offsets, getB_in, getB_out]
  have er : ((H : Int) - 1 + -1).toNat = H - 2 := by omega
  have ec : ((W : Int) - 1 + -1).toNat = W - 2 := by omega
  rw [er, ec]
  ring

theorem neigh_top {W H : Nat} (prv : Board) {c : Nat} (hW : 3 ≤ W) (hH : 3 ≤ H)
    (hc1 : 1 ≤ c) (hc2 : c ≤ W - 2) :
    neigh W H prv 0 c
      = prv 0 (c - 1) + prv 0 (c + 1) + prv 1 (c - 1) + prv 1 c + prv 1 (c + 1) := by
  simp (disch := omega) [neigh, offsets, getB_in, getB_out]
  have ec : ((c : Int) + -1).toNat = c - 1 := by omega
  rw [ec]
  ring

theorem neigh_bot {W H : Nat} (prv : Board) {c : Nat} (hW : 3 ≤ W) (hH : 3 ≤ H)
    (hc1 : 1 ≤ c) (hc2 : c ≤ W - 2) :
    neigh W H prv (H - 1) c
      = prv (H - 2) (c - 1) + prv (H - 2) c + prv (H - 2) (c + 1)
        + prv (H - 1) (c - 1) + prv (H - 1) (c + 1) := by
  simp (disch := omega) [neigh, offsets, getB_in, getB_out]
  have er : ((H : Int) - 1 + -1).toNat = H - 2 := by omega
  have ec : ((c : Int) + -1).toNat = c - 1 := by omega
  rw [er, ec]
  ring

theorem neigh_left {W H : Nat} (prv : Board) {r : Nat} (hW : 3 ≤ W) (hH : 3 ≤ H)
    (hr1 : 1 ≤ r) (hr2 : r ≤ H - 2) :
    neigh W H prv r 0
      = prv (r - 1) 0 + prv (r - 1) 1 + prv r 1 + prv (r + 1) 0 + prv (r + 1) 1 := by
  simp (disch := omega) [neigh, offsets, getB_in, getB_out]
  have er : ((r : Int) + -1).toNat = r - 1 := by omega
  rw [er]
  ring

theorem neigh_right {W H : Nat} (prv : Board) {r : Nat} (hW : 3 ≤ W) (hH : 3 ≤ H)
    (hr1 : 1 ≤ r) (hr2 : r ≤ H - 2) :
    neigh W H prv r (W - 1)
      = prv (r - 1) (W - 2) + prv (r - 1) (W - 1) + prv r (W - 2)
        + prv (r + 1) (W - 2) + prv (r + 1) (W - 1) := by
  simp (disch := omega) [neigh, offsets, getB_in, getB_out]
  have er : ((r : Int) + -1).toNat = r - 1 := by omega
  have ec : ((W : Int) - 1 + -1).toNat = W - 2 := by omega
  rw [er, ec]
  ring

theorem neigh_int {W H : Nat} (prv : Board) {r c : Nat} (hW : 3 ≤ W)
    (hH : 3 ≤ H) (hr1 : 1 ≤ r) (hr2 : r ≤ H - 2) (hc1 : 1 ≤ c) (hc2 : c ≤ W - 2) :
    neigh W H prv r c
      = prv (r - 1) (c - 1) + prv (r - 1) c + prv (r - 1) (c + 1)
        + prv r (c - 1) + prv r (c + 1) + prv (r + 1) (c - 1)
        + prv (r + 1) c + prv (r + 1) (c + 1) := by
  simp (disch := omega) [neigh, offsets, getB_in, getB_out]
  have er : ((r : Int) + -1).toNat = r - 1 := by omega
  have ec : ((c : Int) + -1).toNat = c - 1 := by omega
  rw [er, ec]
  ring

/-! ### Which region's value lands at each cell of `averyOut` -/

theorem averyOut_top {W H : Nat} (prv nxt : Board) {r c : Nat} (hW : 3 ≤ W)
    (hWH : W ≤ H) (hr : r = 0) (hc1 : 1 ≤ c) (hc2 : c ≤ W - 2) :
    averyOut W H prv nxt r c = topVal prv c := by
  simp only [averyOut]
  rw [if_pos (show r = 0 ∧ 1 ≤ c ∧ c < 1 + (W - 1 - 1) by omega)]

theorem averyOut_bot {W H : Nat} (prv nxt : Board) {r c : Nat} (hW : 3 ≤ W)
    (hWH : W ≤ H) (hr : r = H - 1) (hc1 : 1 ≤ c) (hc2 : c ≤ W - 2) :
    averyOut W H prv nxt r c = botVal H prv c := by
  simp only [averyOut]
  rw [if_neg (show ¬(r = 0 ∧ 1 ≤ c ∧ c < 1 + (W - 1 - 1)) by omega),
    if_pos (show r = H - 1 ∧ 1 ≤ c ∧ c < 1 + (W - 1 - 1) by omega)]

theorem averyOut_left {W H : Nat} (prv nxt : Board) {r c : Nat} (hW : 3 ≤ W)
    (hWH : W ≤ H) (hr1 : 1 ≤ r) (hr2 : r ≤ H - 2) (hc : c = 0) :
    averyOut W H prv nxt r c = leftVal prv r := by
  simp only [averyOut]
  rw [if_neg (show ¬(r = 0 ∧ 1 ≤ c ∧ c < 1 + (W - 1 - 1)) by omega),
    if_neg (show ¬(r = H - 1 ∧ 1 ≤ c ∧ c < 1 + (W - 1 - 1)) by omega),
    if_pos (show 1 ≤ r ∧ r < 1 + (H - 1 - 1) ∧ c = 0 by omega)]

theorem averyOut_right {W H : Nat} (prv nxt : Board) {r c : Nat} (hW : 3 ≤ W)
    (hWH : W ≤ H) (hr1 : 1 ≤ r) (hr2 : r ≤ H - 2) (hc : c = W - 1) :
    averyOut W H prv nxt r c = rightVal W prv r := by
  simp only [averyOut]
  rw [if_neg (show ¬(r = 0 ∧ 1 ≤ c ∧ c < 1 + (W - 1 - 1)) by omega),
    if_neg (show ¬(r = H - 1 ∧ 1 ≤ c ∧ c < 1 + (W - 1 - 1)) by omega),
    if_neg (show ¬(1 ≤ r ∧ r < 1 + (H - 1 - 1) ∧ c = 0) by omega),
    if_pos (show 1 ≤ r ∧ r < 1 + (H - 1 - 1) ∧ c = W - 1 by omega)]

theorem averyOut_int {W H : Nat} (prv nxt : Board) {r c : Nat} (hW : 3 ≤ W)
    (hWH : W ≤ H) (hr1 : 1 ≤ r) (hr2 : r ≤ H - 2) (hc1 : 1 ≤ c) (hc2 : c ≤ W - 2) :
    averyOut W H prv nxt r c = interiorVal prv r c := by
  simp only [averyOut]
  rw [if_neg (show ¬(r = 0 ∧ 1 ≤ c ∧ c < 1 + (W - 1 - 1)) by omega),
    if_neg (show ¬(r = H - 1 ∧ 1 ≤ c ∧ c < 1 + (W - 1 - 1)) by omega),
    if_neg (show ¬(1 ≤ r ∧ r < 1 + (H - 1 - 1) ∧ c = 0) by omega),
    if_neg (show ¬(1 ≤ r ∧ r < 1 + (H - 1 - 1) ∧ c = W - 1) by omega),
    if_pos (show 1 ≤ r ∧ r < 1 + (H - 1 - 1) ∧ 1 ≤ c ∧ c < 1 + (W - 1 - 1) by omega)]

theorem averyOut_BR {W H : Nat} (prv nxt : Board) {r c : Nat} (hW : 3 ≤ W)
    (hWH : W ≤ H) (hr : r = H - 1) (hc : c = W - 1) :
    averyOut W H prv nxt r c = cornerBRVal W H prv := by
  simp only [averyOut, upd_apply]
  rw [if_neg (show ¬(r = 0 ∧ 1 ≤ c ∧ c < 1 + (W - 1 - 1)) by omega),
    if_neg (show ¬(r = H - 1 ∧ 1 ≤ c ∧ c < 1 + (W - 1 - 1)) by omega),
    if_neg (show ¬(1 ≤ r ∧ r < 1 + (H - 1 - 1) ∧ c = 0) by omega),
    if_neg (show ¬(1 ≤ r ∧ r < 1 + (H - 1 - 1) ∧ c = W - 1) by omega),
    if_neg (show ¬(1 ≤ r ∧ r < 1 + (H - 1 - 1) ∧ 1 ≤ c ∧ c < 1 + (W - 1 - 1)) by omega),
    if_pos (show r = H - 1 ∧ c = W - 1 by omega)]

theorem averyOut_BL {W H : Nat} (prv nxt : Board) {r c : Nat} (hW : 3 ≤ W)
    (hHW : H ≤ W) (hr : r = W - 1) (hc : c = 0) :
    averyOut W H prv nxt r c = cornerBLVal W H prv := by
  simp only [averyOut, upd_apply]
  rw [if_neg (show ¬(r = 0 ∧ 1 ≤ c ∧ c < 1 + (W - 1 - 1)) by omega),
    if_neg (show ¬(r = H - 1 ∧ 1 ≤ c ∧ c < 1 + (W - 1 - 1)) by omega),
    if_neg (show ¬(1 ≤ r ∧ r < 1 + (H - 1 - 1) ∧ c = 0) by omega),
    if_neg (show ¬(1 ≤ r ∧ r < 1 + (H - 1 - 1) ∧ c = W - 1) by omega),
    if_neg (show ¬(1 ≤ r ∧ r < 1 + (H - 1 - 1) ∧ 1 ≤ c ∧ c < 1 + (W - 1 - 1)) by omega),
    if_neg (show ¬(r = H - 1 ∧ c = W - 1) by omega),
    if_pos (show r = W - 1 ∧ c = 0 by omega)]

theorem averyOut_TR {W H : Nat} (prv nxt : Board) {r c : Nat} (hW : 3 ≤ W)
    (hWH : W ≤ H) (hr : r = 0) (hc : c = W - 1) :
    averyOut W H prv nxt r c = cornerTRVal W prv := by
  simp only [averyOut, upd_apply]
  rw [if_neg (show ¬(r = 0 ∧ 1 ≤ c ∧ c < 1 + (W - 1 - 1)) by omega),
    if_neg (show ¬(r = H - 1 ∧ 1 ≤ c ∧ c < 1 + (W - 1 - 1)) by omega),
    if_neg (show ¬(1 ≤ r ∧ r < 1 + (H - 1 - 1) ∧ c = 0) by omega),
    if_neg (show ¬(1 ≤ r ∧ r < 1 + (H - 1 - 1) ∧ c = W - 1) by omega),
    if_neg (show ¬(1 ≤ r ∧ r < 1 + (H - 1 - 1) ∧ 1 ≤ c ∧ c < 1 + (W - 1 - 1)) by omega),
    if_neg (show ¬(r = H - 1 ∧ c = W - 1) by omega),
    if_neg (show ¬(r = W - 1 ∧ c = 0) by omega),
    if_pos (show r = 0 ∧ c = W - 1 by omega)]

theorem averyOut_TL {W H : Nat} (prv nxt : Board) {r c : Nat} (hW : 3 ≤ W)
    (hWH : W ≤ H) (hr : r = 0) (hc : c = 0) :
    averyOut W H prv nxt r c = cornerTLVal prv := by
  simp only [averyOut, upd_apply]
  rw [if_neg (show ¬(r = 0 ∧ 1 ≤ c ∧ c < 1 + (W - 1 - 1)) by omega),
    if_neg (show ¬(r = H - 1 ∧ 1 ≤ c ∧ c < 1 + (W - 1 - 1)) by omega),
    if_neg (show ¬(1 ≤ r ∧ r < 1 + (H - 1 - 1) ∧ c = 0) by omega),
    if_neg (show ¬(1 ≤ r ∧ r < 1 + (H - 1 - 1) ∧ c = W - 1) by omega),
    if_neg (show ¬(1 ≤ r ∧ r < 1 + (H - 1 - 1) ∧ 1 ≤ c ∧ c < 1 + (W - 1 - 1)) by omega),
    if_neg (show ¬(r = H - 1 ∧ c = W - 1) by omega),
    if_neg (show ¬(r = W - 1 ∧ c = 0) by omega),
    if_neg (show ¬(r = 0 ∧ c = W - 1) by omega),
    if_pos (show r = 0 ∧ c = 0 by omega)]

/-- When `W < H`, the true bottom-left corner `(H-1, 0)` is written by no
region: the cell keeps the initial contents of the output buffer. -/
theorem averyOut_miss {W H : Nat} (prv nxt : Board) {r c : Nat} (hW : 3 ≤ W)
    (hlt : W < H) (hr : r = H - 1) (hc : c = 0) :
    averyOut W H prv nxt r c = nxt r c := by
  simp only [averyOut, upd_apply]
  rw [if_neg (show ¬(r = 0 ∧ 1 ≤ c ∧ c < 1 + (W - 1 - 1)) by omega),
    if_neg (show ¬(r = H - 1 ∧ 1 ≤ c ∧ c < 1 + (W - 1 - 1)) by omega),
    if_neg (show ¬(1 ≤ r ∧ r < 1 + (H - 1 - 1) ∧ c = 0) by omega),
    if_neg (show ¬(1 ≤ r ∧ r < 1 + (H - 1 - 1) ∧ c = W - 1) by omega),
    if_neg (show ¬(1 ≤ r ∧ r < 1 + (H - 1 - 1) ∧ 1 ≤ c ∧ c < 1 + (W - 1 - 1)) by omega),
    if_neg (show ¬(r = H - 1 ∧ c = W - 1) by omega),
    if_neg (show ¬(r = W - 1 ∧ c = 0) by omega),
    if_neg (show ¬(r = 0 ∧ c = W - 1) by omega),
    if_neg (show ¬(r = 0 ∧ c = 0) by omega)]

/-! ### Square boards: every in-range cell gets a region value -/

theorem lifeRule_congr (k : Nat) {n m : Nat} (h : n = m) :
    lifeRule k n = lifeRule k m := by rw [h]

/-- On a square board the output cell value never depends on the initial
contents of the output buffer. -/
theorem averyOut_sq_nxt_indep {W : Nat} (prv n1 n2 : Board) (hW : 3 ≤ W)
    {r c : Nat} (hr : r < W) (hc : c < W) :
    averyOut W W prv n1 r c = averyOut W W prv n2 r c := by
  by_cases hr0 : r = 0
  · by_cases hc0 : c = 0
    · rw [averyOut_TL prv n1 hW (le_refl W) hr0 hc0,
        averyOut_TL prv n2 hW (le_refl W) hr0 hc0]
    · by_cases hcW : c = W - 1
      · rw [averyOut_TR prv n1 hW (le_refl W) hr0 hcW,
          averyOut_TR prv n2 hW (le_refl W) hr0 hcW]
      · rw [averyOut_top prv n1 hW (le_refl W) hr0 (by omega) (by omega),
          averyOut_top prv n2 hW (le_refl W) hr0 (by omega) (by omega)]
  · by_cases hrW : r = W - 1
    · by_cases hc0 : c = 0
      · rw [averyOut_BL prv n1 hW (le_refl W) hrW hc0,
          averyOut_BL prv n2 hW (le_refl W) hrW hc0]
      · by_cases hcW : c = W - 1
        · rw [averyOut_BR prv n1 hW (le_refl W) hrW hcW,
            averyOut_BR prv n2 hW (le_refl W) hrW hcW]
        · rw [averyOut_bot prv n1 hW (le_refl W) hrW (by omega) (by omega),
            averyOut_bot prv n2 hW (le_refl W) hrW (by omega) (by omega)]
    · by_cases hc0 : c = 0
      · rw [averyOut_left prv n1 hW (le_refl W) (by omega) (by omega) hc0,
          averyOut_left prv n2 hW (le_refl W) (by omega) (by omega) hc0]
      · by_cases hcW : c = W - 1
        · rw [averyOut_right prv n1 hW (le_refl W) (by omega) (by omega) hcW,
            averyOut_right prv n2 hW (le_refl W) (by omega) (by omega) hcW]
        · rw [averyOut_int prv n1 hW (le_refl W) (by omega) (by omega)
              (by omega) (by omega),
            averyOut_int prv n2 hW (le_refl W) (by omega) (by omega)
              (by omega) (by omega)]

/-- On a square 0/1 board, `averyOut` agrees with the naive reference at
every in-range cell. -/
theorem averyOut_sq_eq_naive {W : Nat} (prv nxt : Board) (hW : 3 ≤ W)
    (h01 : ∀ r c, r < W → c < W → prv r c ≤ 1) {r c : Nat} (hr : r < W)
    (hc : c < W) : averyOut W W prv nxt r c = naiveNext W W prv r c := by
  have hk := h01 r c hr hc
  have hn := neigh_le_8 prv h01 r c
  rw [naiveNext, ← lifeRule_eq_b3s23 hk hn]
  by_cases hr0 : r = 0
  · subst hr0
    by_cases hc0 : c = 0
    · subst hc0
      rw [averyOut_TL prv nxt hW (le_refl W) rfl rfl, cornerTLVal,
        neigh_TL prv hW hW]
      exact lifeRule_congr _ (by ring)
    · by_cases hcW : c = W - 1
      · subst hcW
        rw [averyOut_TR prv nxt hW (le_refl W) rfl rfl, cornerTRVal,
          neigh_TR prv hW hW]
      · rw [averyOut_top prv nxt hW (le_refl W) rfl (by omega) (by omega),
          topVal, neigh_top prv hW hW (by omega) (by omega)]
        exact lifeRule_congr _ (by ring)
  · by_cases hrW : r = W - 1
    · subst hrW
      by_cases hc0 : c = 0
      · subst hc0
        rw [averyOut_BL prv nxt hW (le_refl W) rfl rfl, cornerBLVal,
          neigh_BL prv hW hW]
      · by_cases hcW : c = W - 1
        · subst hcW
          rw [averyOut_BR prv nxt hW (le_refl W) rfl rfl, cornerBRVal,
            neigh_BR prv hW hW]
        · rw [averyOut_bot prv nxt hW (le_refl W) rfl (by omega) (by omega),
            botVal, neigh_bot prv hW hW (by omega) (by omega)]
          exact lifeRule_congr _ (by ring)
    · by_cases hc0 : c = 0
      · subst hc0
        rw [averyOut_left prv nxt hW (le_refl W) (by omega) (by omega) rfl,
          leftVal, neigh_left prv hW hW (by omega) (by omega)]
        exact lifeRule_congr _ (by ring)
      · by_cases hcW : c = W - 1
        · subst hcW
          rw [averyOut_right prv nxt hW (le_refl W) (by omega) (by omega) rfl,
            rightVal, neigh_right prv hW hW (by omega) (by omega)]
          exact lifeRule_congr _ (by ring)
        · rw [averyOut_int prv nxt hW (le_refl W) (by omega) (by omega)
              (by omega) (by omega),
            interiorVal, neigh_int prv hW hW (by omega) (by omega)
              (by omega) (by omega)]

/-! ### Counting how often each cell is written -/

theorem count_map_row (i : Nat) (r c : Nat) :
    ∀ (m s : Nat), ((List.range' s m).map (fun j => (i, j))).count (r, c)
      = if r = i ∧ s ≤ c ∧ c < s + m then 1 else 0 := by
  intro m
  induction m with
  | zero =>
    intro s
    rw [List.range'_zero, List.map_nil, List.count_nil, if_neg (by omega)]
  | succ m ih =>
    intro s
    rw [List.range'_succ, List.map_cons, List.count_cons, ih (s + 1)]
    simp only [beq_iff_eq, Prod.mk.injEq]
    split_ifs <;> omega

theorem count_flatMap_row (r c : Nat) (m : Nat) :
    ∀ (n s : Nat),
      ((List.range' s n).flatMap
        (fun i => (List.range' 1 m).map (fun j => (i, j)))).count (r, c)
      = if s ≤ r ∧ r < s + n ∧ 1 ≤ c ∧ c < 1 + m then 1 else 0 := by
  intro n
  induction n with
  | zero =>
    intro s
    rw [List.range'_zero, List.flatMap_nil, List.count_nil, if_neg (by omega)]
  | succ n ih =>
    intro s
    rw [List.range'_succ, List.flatMap_cons, List.count_append, ih (s + 1),
      count_map_row]
    split_ifs <;> omega

theorem count_flatMap_pair (a b : Nat) (r c : Nat) :
    ∀ (n s : Nat),
      ((List.range' s n).flatMap (fun i => [(i, a), (i, b)])).count (r, c)
      = (if s ≤ r ∧ r < s + n ∧ c = a then 1 else 0)
        + (if s ≤ r ∧ r < s + n ∧ c = b then 1 else 0) := by
  intro n
  induction n with
  | zero =>
    intro s
    rw [List.range'_zero, List.flatMap_nil, List.count_nil, if_neg (by omega),
      if_neg (by omega)]
  | succ n ih =>
    intro s
    rw [List.range'_succ, List.flatMap_cons, List.count_append, ih (s + 1),
      List.count_cons, List.count_cons, List.count_nil]
    simp only [beq_iff_eq, Prod.mk.injEq]
    split_ifs <;> omega

theorem count_flatMap_pair_col (a b : Nat) (r c : Nat) :
    ∀ (n s : Nat),
      ((List.range' s n).flatMap (fun j => [(a, j), (b, j)])).count (r, c)
      = (if r = a ∧ s ≤ c ∧ c < s + n then 1 else 0)
        + (if r = b ∧ s ≤ c ∧ c < s + n then 1 else 0) := by
  intro n
  induction n with
  | zero =>
    intro s
    rw [List.range'_zero, List.flatMap_nil, List.count_nil, if_neg (by omega),
      if_neg (by omega)]
  | succ n ih =>
    intro s
    rw [List.range'_succ, List.flatMap_cons, List.count_append, ih (s + 1),
      List.count_cons, List.count_cons, List.count_nil]
    simp only [beq_iff_eq, Prod.mk.injEq]
    split_ifs <;> omega

/-- On a square board, the five write regions of `Avery` write every in-range
cell exactly once. -/
theorem writes_count_one {W : Nat} (hW : 3 ≤ W) {r c : Nat} (hr : r < W)
    (hc : c < W) : (writes W W).count (r, c) = 1 := by
  rw [writes, List.count_append, List.count_append, List.count_append,
    count_flatMap_row, count_flatMap_pair, count_flatMap_pair_col,
    List.count_cons, List.count_cons, List.count_cons, List.count_cons,
    List.count_nil]
  simp only [beq_iff_eq, Prod.mk.injEq]
  split_ifs <;> omega

/-! ### When `WIDTH > HEIGHT` the bottom-left corner update goes out of bounds -/

/-- For `H < W` the read `prv[WIDTH-1][0]` of the bottom-left corner update
has row index `≥ HEIGHT`: the whole computation aborts with `none`. -/
theorem Avery_none {W H : Nat} (prv nxt : Board) (hH : 3 ≤ H) (hlt : H < W) :
    Avery W H prv nxt = none := by
  simp (disch := omega) [Avery, corners, corner1, corner2, corner3, cornerN1,
    cornerN2, cornerN3, rd_in, rd_out, wr_in]

/-! ### Locality: an output cell reads the input only in its 3-by-3 block -/

theorem averyOut_local {W H : Nat} (prv1 prv2 nxt : Board) (hW : 3 ≤ W)
    (hWH : W ≤ H) {qr qc r c : Nat}
    (hagree : ∀ a b, ¬(a = qr ∧ b = qc) → prv1 a b = prv2 a b)
    (hr : r < H) (hc : c < W)
    (hfar : qr + 3 ≤ r ∨ r + 3 ≤ qr ∨ qc + 3 ≤ c ∨ c + 3 ≤ qc) :
    averyOut W H prv1 nxt r c = averyOut W H prv2 nxt r c := by
  by_cases hr0 : r = 0
  · by_cases hc0 : c = 0
    · rw [averyOut_TL prv1 nxt hW hWH hr0 hc0, averyOut_TL prv2 nxt hW hWH hr0 hc0,
        cornerTLVal, cornerTLVal, hagree 0 0 (by omega), hagree 0 1 (by omega),
        hagree 1 1 (by omega), hagree 1 0 (by omega)]
    · by_cases hcW : c = W - 1
      · rw [averyOut_TR prv1 nxt hW hWH hr0 hcW, averyOut_TR prv2 nxt hW hWH hr0 hcW,
          cornerTRVal, cornerTRVal, hagree 0 (W - 1) (by omega),
          hagree 0 (W - 2) (by omega), hagree 1 (W - 2) (by omega),
          hagree 1 (W - 1) (by omega)]
      · rw [averyOut_top prv1 nxt hW hWH hr0 (by omega) (by omega),
          averyOut_top prv2 nxt hW hWH hr0 (by omega) (by omega),
          topVal, topVal, hagree 0 c (by omega), hagree 1 (c - 1) (by omega),
          hagree 1 (c + 1) (by omega), hagree 1 c (by omega),
          hagree 0 (c - 1) (by omega), hagree 0 (c + 1) (by omega)]
  · by_cases hrH : r = H - 1
    · by_cases hc0 : c = 0
      · by_cases hWeq : W = H
        · subst hWeq
          rw [averyOut_BL prv1 nxt hW (le_refl W) (by omega) hc0,
            averyOut_BL prv2 nxt hW (le_refl W) (by omega) hc0,
            cornerBLVal, cornerBLVal, hagree (W - 1) 0 (by omega),
            hagree (W - 2) 0 (by omega), hagree (W - 2) 1 (by omega),
            hagree (W - 1) 1 (by omega)]
        · rw [averyOut_miss prv1 nxt hW (by omega) hrH hc0,
            averyOut_miss prv2 nxt hW (by omega) hrH hc0]
      · by_cases hcW : c = W - 1
        · rw [averyOut_BR prv1 nxt hW hWH hrH hcW, averyOut_BR prv2 nxt hW hWH hrH hcW,
            cornerBRVal, cornerBRVal, hagree (H - 1) (W - 1) (by omega),
            hagree (H - 2) (W - 2) (by omega), hagree (H - 1) (W - 2) (by omega),
            hagree (H - 2) (W - 1) (by omega)]
        · rw [averyOut_bot prv1 nxt hW hWH hrH (by omega) (by omega),
            averyOut_bot prv2 nxt hW hWH hrH (by omega) (by omega),
            botVal, botVal, hagree (H - 1) c (by omega),
            hagree (H - 1) (c - 1) (by omega), hagree (H - 1) (c + 1) (by omega),
            hagree (H - 2) c (by omega), hagree (H - 2) (c - 1) (by omega),
            hagree (H - 2) (c + 1) (by omega)]
    · by_cases hc0 : c = 0
      · rw [averyOut_left prv1 nxt hW hWH (by omega) (by omega) hc0,
          averyOut_left prv2 nxt hW hWH (by omega) (by omega) hc0,
          leftVal, leftVal, hagree r 0 (by omega), hagree (r - 1) 1 (by omega),
          hagree (r + 1) 1 (by omega), hagree r 1 (by omega),
          hagree (r - 1) 0 (by omega), hagree (r + 1) 0 (by omega)]
      · by_cases hcW : c = W - 1
        · rw [averyOut_right prv1 nxt hW hWH (by omega) (by omega) hcW,
            averyOut_right prv2 nxt hW hWH (by omega) (by omega) hcW,
            rightVal, rightVal, hagree r (W - 1) (by omega),
            hagree (r - 1) (W - 1) (by omega), hagree (r + 1) (W - 1) (by omega),
            hagree (r + 1) (W - 2) (by omega), hagree (r - 1) (W - 2) (by omega),
            hagree r (W - 2) (by omega)]
        · rw [averyOut_int prv1 nxt hW hWH (by omega) (by omega) (by omega)
              (by omega),
            averyOut_int prv2 nxt hW hWH (by omega) (by omega) (by omega)
              (by omega),
            interiorVal, interiorVal, hagree r c (by omega),
            hagree (r - 1) (c - 1) (by omega), hagree (r - 1) c (by omega),
            hagree (r - 1) (c + 1) (by omega), hagree r (c - 1) (by omega),
            hagree r (c + 1) (by omega), hagree (r + 1) (c - 1) (by omega),
            hagree (r + 1) c (by omega), hagree (r + 1) (c + 1) (by omega)]

/-! ### Frame property: no step of `AveryS` touches the `prv` buffer -/

theorem wrS_fst {W H : Nat} {s : Board × Board} {r c v : Nat}
    {s' : Board × Board} (h : wrS W H s r c v = some s') : s'.1 = s.1 := by
  rw [wrS] at h
  by_cases hb : r < H ∧ c < W
  · rw [if_pos hb] at h
    cases h
    rfl
  · rw [if_neg hb] at h
    cases h

theorem corner1S_fst {W H : Nat} {s s' : Board × Board}
    (h : corner1S W H s = some s') : s'.1 = s.1 := by
  simp only [corner1S, Option.bind_eq_bind', Option.bind_eq_some'] at h
  obtain ⟨a1, h1, a2, h2, a3, h3, k, hk, hw⟩ := h
  exact wrS_fst hw

theorem corner2S_fst {W H : Nat} {s s' : Board × Board}
    (h : corner2S W H s = some s') : s'.1 = s.1 := by
  simp only [corner2S, Option.bind_eq_bind', Option.bind_eq_some'] at h
  obtain ⟨a1, h1, a2, h2, a3, h3, k, hk, hw⟩ := h
  exact wrS_fst hw

theorem corner3S_fst {W H : Nat} {s s' : Board × Board}
    (h : corner3S W H s = some s') : s'.1 = s.1 := by
  simp only [corner3S, Option.bind_eq_bind', Option.bind_eq_some'] at h
  obtain ⟨a1, h1, a2, h2, a3, h3, k, hk, hw⟩ := h
  exact wrS_fst hw

theorem corner4S_fst {W H : Nat} {s s' : Board × Board}
    (h : corner4S W H s = some s') : s'.1 = s.1 := by
  simp only [corner4S, Option.bind_eq_bind', Option.bind_eq_some'] at h
  obtain ⟨a1, h1, a2, h2, a3, h3, k, hk, hw⟩ := h
  exact wrS_fst hw

theorem interiorBodyS_fst {W H i : Nat} {s : Board × Board} {j : Nat}
    {s' : Board × Board} (h : interiorBodyS W H i s j = some s') : s'.1 = s.1 := by
  simp only [interiorBodyS, interiorNS, Option.bind_eq_bind', Option.bind_eq_some'] at h
  obtain ⟨k, hk, n, ⟨n1, h1, n2, h2, n3, h3, n4, h4, n5, h5, n6, h6, n7, h7,
    n8, h8, hp⟩, hw⟩ := h
  exact wrS_fst hw

theorem rightS_fst {W H : Nat} {s : Board × Board} {i : Nat}
    {s' : Board × Board} (h : rightS W H s i = some s') : s'.1 = s.1 := by
  simp only [rightS, Option.bind_eq_bind', Option.bind_eq_some'] at h
  obtain ⟨n1, h1, n2, h2, n3, h3, n4, h4, n5, h5, k, hk, hw⟩ := h
  exact wrS_fst hw

theorem leftS_fst {W H : Nat} {s : Board × Board} {i : Nat}
    {s' : Board × Board} (h : leftS W H s i = some s') : s'.1 = s.1 := by
  simp only [leftS, Option.bind_eq_bind', Option.bind_eq_some'] at h
  obtain ⟨n1, h1, n2, h2, n3, h3, n4, h4, n5, h5, k, hk, hw⟩ := h
  exact wrS_fst hw

theorem lrBodyS_fst {W H : Nat} {s : Board × Board} {i : Nat}
    {s' : Board × Board} (h : lrBodyS W H s i = some s') : s'.1 = s.1 := by
  simp only [lrBodyS, Option.bind_eq_bind', Option.bind_eq_some'] at h
  obtain ⟨m, hm, hl⟩ := h
  exact (leftS_fst hl).trans (rightS_fst hm)

theorem botS_fst {W H : Nat} {s : Board × Board} {j : Nat}
    {s' : Board × Board} (h : botS W H s j = some s') : s'.1 = s.1 := by
  simp only [botS, Option.bind_eq_bind', Option.bind_eq_some'] at h
  obtain ⟨n1, h1, n2, h2, n3, h3, n4, h4, n5, h5, k, hk, hw⟩ := h
  exact wrS_fst hw

theorem topS_fst {W H : Nat} {s : Board × Board} {j : Nat}
    {s' : Board × Board} (h : topS W H s j = some s') : s'.1 = s.1 := by
  simp only [topS, Option.bind_eq_bind', Option.bind_eq_some'] at h
  obtain ⟨n1, h1, n2, h2, n3, h3, n4, h4, n5, h5, k, hk, hw⟩ := h
  exact wrS_fst hw

theorem tbBodyS_fst {W H : Nat} {s : Board × Board} {j : Nat}
    {s' : Board × Board} (h : tbBodyS W H s j = some s') : s'.1 = s.1 := by
  simp only [tbBodyS, Option.bind_eq_bind', Option.bind_eq_some'] at h
  obtain ⟨m, hm, ht⟩ := h
  exact (topS_fst ht).trans (botS_fst hm)

/-- A monadic fold whose body never touches the first component of the state
never touches it either. -/
theorem foldlM_fst {α : Type} {f : Board × Board → α → Option (Board × Board)}
    (hf : ∀ s a s', f s a = some s' → s'.1 = s.1) :
    ∀ (L : List α) (s s' : Board × Board), L.foldlM f s = some s' → s'.1 = s.1 := by
  intro L
  induction L with
  | nil =>
    intro s s' h
    rw [List.foldlM_nil] at h
    cases h
    rfl
  | cons x xs ih =>
    intro s s' h
    rw [List.foldlM_cons] at h
    rw [Option.bind_eq_bind', Option.bind_eq_some'] at h
    obtain ⟨m, hm, hrest⟩ := h
    exact (ih m s' hrest).trans (hf s x m hm)

/-- The previous-generation buffer is bit-for-bit unchanged by `AveryS`. -/
theorem AveryS_fst {W H : Nat} {s s' : Board × Board}
    (h : AveryS W H s = some s') : s'.1 = s.1 := by
  simp only [AveryS, Option.bind_eq_bind', Option.bind_eq_some'] at h
  obtain ⟨s1, h1, s2, h2, s3, h3, s4, h4, s5, h5, s6, h6, h7⟩ := h
  have f5 : s5.1 = s4.1 := foldlM_fst
    (fun s a s' hh => foldlM_fst (fun s a s' hh => interiorBodyS_fst hh) _ s s' hh)
    _ s4 s5 h5
  have f6 : s6.1 = s5.1 := foldlM_fst (fun s a s' hh => lrBodyS_fst hh) _ s5 s6 h6
  have f7 : s'.1 = s6.1 := foldlM_fst (fun s a s' hh => tbBodyS_fst hh) _ s6 s' h7
  rw [f7, f6, f5, corner4S_fst h4, corner3S_fst h3, corner2S_fst h2,
    corner1S_fst h1]

/-! ### Extracting the successful result of a computation -/

theorem eq_some_getD {α : Type} {x : Option α} (h : x.isSome = true) (d : α) :
    x = some (x.getD d) := by
  cases x with
  | none => cases h
  | some a => rfl

/-! ### The claims -/

/-- C1: the claim states that for every board with `WIDTH, HEIGHT ≥ 3` the
output of `Avery` equals the naive bounds-checked B3/S23 reference at every
cell.  The code violates this off square boards: at `WIDTH = 3, HEIGHT = 4`
with live cells at (2,0), (2,1), (3,1) and a zeroed output buffer, `Avery`
leaves the bottom-left corner (3,0) dead (its corner formula writes row
`WIDTH-1 = 2` instead of `HEIGHT-1 = 3`, so cell (3,0) is never written),
while the reference births it; and at `WIDTH = 4, HEIGHT = 3` the write
`nxt[WIDTH-1][0]` is out of bounds, so the embedding aborts with `none`. -/
theorem avery_corner_row_bug :
    ((Avery 3 4 prvC1 zeroB).map (fun b => b 3 0) = some 0
      ∧ naiveNext 3 4 prvC1 3 0 = 1)
    ∧ (Avery 4 3 zeroB zeroB).isSome = false := by
  decide

/-- C2 (counterexample): with `WIDTH = 3, HEIGHT = 4` the in-range cell (3,0)
is covered by no region (count 0, not 1), and cell (2,0) is covered twice. -/
theorem writes_nonsquare_miss :
    ¬((writes 3 4).count (3, 0) = 1) ∧ (3 : Nat) < 4 ∧ (0 : Nat) < 3
      ∧ (writes 3 4).count (3, 0) = 0 ∧ (writes 3 4).count (2, 0) = 2 := by
  decide

/-- C2 (amended): on square boards (`WIDTH = HEIGHT ≥ 3`) the five write
regions of `Avery` — corners, interior, left/right edges, top/bottom edges —
cover every in-range cell exactly once. -/
theorem writes_tile_square (W : Nat) (hW : 3 ≤ W) (r c : Nat) (hr : r < W)
    (hc : c < W) : (writes W W).count (r, c) = 1 :=
  writes_count_one hW hr hc

theorem writes_tile_square_witness :
    3 ≤ 5 ∧ (2 : Nat) < 5 ∧ (3 : Nat) < 5 ∧ (writes 5 5).count (2, 3) = 1 :=
  ⟨by decide, by decide, by decide,
    writes_tile_square 5 (by decide) 2 3 (by decide) (by decide)⟩

/-- C3: under the precondition `3 ≤ WIDTH ≤ HEIGHT` every array access of
`Avery` (including the reads and writes at row index `WIDTH-1` in the
bottom-left corner formula) is in bounds: in the Option embedding, where any
out-of-bounds access aborts the whole computation with `none`, `Avery`
returns a result. -/
theorem avery_accesses_in_bounds (W H : Nat) (hW : 3 ≤ W) (hWH : W ≤ H)
    (prv nxt : Board) : (Avery W H prv nxt).isSome = true := by
  rw [Avery_eq_averyOut prv nxt hW hWH]
  rfl

theorem avery_accesses_in_bounds_witness :
    3 ≤ 3 ∧ 3 ≤ 4 ∧ (Avery 3 4 zeroB oneB).isSome = true :=
  ⟨by decide, by decide,
    avery_accesses_in_bounds 3 4 (by decide) (by decide) zeroB oneB⟩

/-- C4: for every alive flag `a ∈ {0, 1}` and neighbor count `n ≤ 8`, the bit
trick `(a | n) == 3` of the source computes the direct B3/S23 rule, and it
makes the cell alive exactly when `a = 1` and `n ∈ {2, 3}`, or `a = 0` and
`n = 3`. -/
theorem bit_trick_is_b3s23 (a n : Nat) (ha : a ≤ 1) (hn : n ≤ 8) :
    lifeRule a n = b3s23 a n
      ∧ (lifeRule a n = 1 ↔ ((a = 1 ∧ (n = 2 ∨ n = 3)) ∨ (a = 0 ∧ n = 3))) := by
  refine ⟨lifeRule_eq_b3s23 ha hn, ?_⟩
  interval_cases a <;> interval_cases n <;> decide

theorem bit_trick_is_b3s23_witness :
    (1 : Nat) ≤ 1 ∧ (3 : Nat) ≤ 8
      ∧ (lifeRule 1 3 = b3s23 1 3
        ∧ (lifeRule 1 3 = 1
          ↔ (((1 : Nat) = 1 ∧ ((3 : Nat) = 2 ∨ (3 : Nat) = 3))
            ∨ ((1 : Nat) = 0 ∧ (3 : Nat) = 3)))) :=
  ⟨by decide, by decide, bit_trick_is_b3s23 1 3 (by decide) (by decide)⟩

/-- C5: on every square board (`WIDTH = HEIGHT ≥ 3`) with 0/1 cells, `Avery`
succeeds and its output equals the naive bounds-checked neighbor-counting
implementation of the B3/S23 rule at every cell. -/
theorem avery_refines_naive_square (W : Nat) (hW : 3 ≤ W) (prv nxt : Board)
    (h01 : ∀ r c, r < W → c < W → prv r c ≤ 1) :
    ∃ b, Avery W W prv nxt = some b
      ∧ ∀ r c, r < W → c < W → b r c = naiveNext W W prv r c := by
  refine ⟨averyOut W W prv nxt, Avery_eq_averyOut prv nxt hW (le_refl W), ?_⟩
  intro r c hr hc
  exact averyOut_sq_eq_naive prv nxt hW h01 hr hc

theorem avery_refines_naive_square_witness :
    3 ≤ 3 ∧ ∃ b, Avery 3 3 ind11 oneB = some b
      ∧ ∀ r c, r < 3 → c < 3 → b r c = naiveNext 3 3 ind11 r c :=
  ⟨by decide, avery_refines_naive_square 3 (by decide) ind11 oneB
    (fun r c _ _ => by unfold ind11; split <;> omega)⟩

/-- C6 (counterexample): on the nonsquare board `WIDTH = 3, HEIGHT = 4` the
final output depends on the initial contents of the output buffer: starting
from a zeroed buffer and from an all-ones buffer, the outputs differ at the
never-written cell (3,0), refuting the claim for all `WIDTH, HEIGHT ≥ 3`. -/
theorem avery_buffer_dependence_nonsquare :
    ¬(∀ b1 b2 : Board, Avery 3 4 zeroB zeroB = some b1
      → Avery 3 4 zeroB oneB = some b2
      → ∀ r c, r < 4 → c < 3 → b1 r c = b2 r c) := by
  intro hall
  have h1 : (Avery 3 4 zeroB zeroB).map (fun b => b 3 0) = some 0 := by decide
  have h2 : (Avery 3 4 zeroB oneB).map (fun b => b 3 0) = some 1 := by decide
  cases E1 : Avery 3 4 zeroB zeroB with
  | none => rw [E1] at h1; cases h1
  | some b1 =>
    cases E2 : Avery 3 4 zeroB oneB with
    | none => rw [E2] at h2; cases h2
    | some b2 =>
      have hx := hall b1 b2 E1 E2 3 0 (by omega) (by omega)
      rw [E1] at h1
      rw [E2] at h2
      simp only [Option.map_some', Option.some.injEq] at h1 h2
      omega

/-- C6 (amended): on square boards (`WIDTH = HEIGHT ≥ 3`) `Avery` is a pure
function of the previous board: two runs on the same input, into output
buffers of arbitrary and possibly different initial contents, produce
identical values at every in-range cell. -/
theorem avery_buffer_independent_square (W : Nat) (hW : 3 ≤ W)
    (prv n1 n2 b1 b2 : Board) (h1 : Avery W W prv n1 = some b1)
    (h2 : Avery W W prv n2 = some b2) (r c : Nat) (hr : r < W) (hc : c < W) :
    b1 r c = b2 r c := by
  rw [Avery_eq_averyOut prv n1 hW (le_refl W)] at h1
  rw [Avery_eq_averyOut prv n2 hW (le_refl W)] at h2
  cases h1
  cases h2
  exact averyOut_sq_nxt_indep prv n1 n2 hW hr hc

theorem avery_buffer_independent_square_witness :
    3 ≤ 3 ∧ ((Avery 3 3 ind11 zeroB).getD zeroB) 1 1
      = ((Avery 3 3 ind11 oneB).getD zeroB) 1 1 :=
  ⟨by decide, avery_buffer_independent_square 3 (by decide) ind11 zeroB oneB _ _
    (eq_some_getD (by decide) zeroB) (eq_some_getD (by decide) zeroB)
    1 1 (by decide) (by decide)⟩

/-- C7 (counterexample): with `WIDTH = 3, HEIGHT = 4`, a single live cell at
(1,1) and an output buffer holding stale ones, the output of `Avery` is not
entirely dead: the never-written cell (3,0) keeps the value 1, refuting the
claim for all `WIDTH, HEIGHT ≥ 3`. -/
theorem single_cell_not_dead_nonsquare :
    ¬(∀ b : Board, Avery 3 4 ind11 oneB = some b
      → ∀ r c, r < 4 → c < 3 → b r c = 0) := by
  intro hall
  have h1 : (Avery 3 4 ind11 oneB).map (fun b => b 3 0) = some 1 := by decide
  cases E : Avery 3 4 ind11 oneB with
  | none => rw [E] at h1; cases h1
  | some b =>
    have hx := hall b E 3 0 (by omega) (by omega)
    rw [E] at h1
    simp only [Option.map_some', Option.some.injEq] at h1
    omega

/-- C7 (amended): on square boards (`WIDTH = HEIGHT ≥ 3`), if the input holds
exactly one live cell then the board produced by `Avery` is entirely dead. -/
theorem single_cell_dies_square (W : Nat) (hW : 3 ≤ W) (r0 c0 : Nat)
    (h0r : r0 < W) (h0c : c0 < W) (prv : Board)
    (hprv : ∀ r c, prv r c = if r = r0 ∧ c = c0 then 1 else 0)
    (nxt b : Board) (hA : Avery W W prv nxt = some b) (r c : Nat)
    (hr : r < W) (hc : c < W) : b r c = 0 := by
  have h01 : ∀ a d, a < W → d < W → prv a d ≤ 1 := by
    intro a d _ _
    rw [hprv a d]
    split <;> omega
  rw [Avery_eq_averyOut prv nxt hW (le_refl W)] at hA
  cases hA
  rw [averyOut_sq_eq_naive prv nxt hW h01 hr hc, naiveNext]
  have gs : ∀ a d : Int, getB W W prv a d
      = if a = (r0 : Int) ∧ d = (c0 : Int) then 1 else 0 := by
    intro a d
    rw [getB]
    by_cases hin : 0 ≤ a ∧ a < (W : Int) ∧ 0 ≤ d ∧ d < (W : Int)
    · rw [if_pos hin, hprv]
      by_cases he : a.toNat = r0 ∧ d.toNat = c0
      · rw [if_pos he, if_pos (by omega)]
      · rw [if_neg he, if_neg (by omega)]
    · rw [if_neg hin, if_neg (by omega)]
  have hle : neigh W W prv r c ≤ 1 := by
    simp only [neigh, offsets, List.map_cons, List.map_nil, List.sum_cons,
      List.sum_nil, gs]
    split_ifs <;> omega
  have hflag : prv r c ≤ 1 := h01 r c hr hc
  rw [b3s23]
  split_ifs <;> omega

theorem single_cell_dies_square_witness :
    3 ≤ 3 ∧ ((Avery 3 3 ind11 oneB).getD oneB) 0 0 = 0 :=
  ⟨by decide, single_cell_dies_square 3 (by decide) 1 1 (by decide) (by decide)
    ind11 (fun r c => rfl) oneB _ (eq_some_getD (by decide) oneB)
    0 0 (by decide) (by decide)⟩

/-- C8: flipping a single corner cell of the input changes no output cell
whose row distance or column distance from that corner exceeds 2.  Stated for
any two inputs that agree away from a corner `(qr, qc)` of the board, for any
dimensions `WIDTH, HEIGHT ≥ 3` on which `Avery` produces outputs. -/
theorem avery_corner_locality (W H : Nat) (hW : 3 ≤ W) (hH : 3 ≤ H)
    (qr qc : Nat) (hq : (qr = 0 ∨ qr = H - 1) ∧ (qc = 0 ∨ qc = W - 1))
    (prv1 prv2 nxt : Board)
    (hagree : ∀ a b, ¬(a = qr ∧ b = qc) → prv1 a b = prv2 a b)
    (b1 b2 : Board) (h1 : Avery W H prv1 nxt = some b1)
    (h2 : Avery W H prv2 nxt = some b2) (r c : Nat) (hr : r < H) (hc : c < W)
    (hfar : qr + 3 ≤ r ∨ r + 3 ≤ qr ∨ qc + 3 ≤ c ∨ c + 3 ≤ qc) :
    b1 r c = b2 r c := by
  rcases le_or_lt W H with hWH | hWH
  · rw [Avery_eq_averyOut prv1 nxt hW hWH] at h1
    rw [Avery_eq_averyOut prv2 nxt hW hWH] at h2
    cases h1
    cases h2
    exact averyOut_local prv1 prv2 nxt hW hWH hagree hr hc hfar
  · rw [Avery_none prv1 nxt hH hWH] at h1
    cases h1

theorem avery_corner_locality_witness :
    3 ≤ 6 ∧ ((Avery 6 6 zeroB zeroB).getD oneB) 5 5
      = ((Avery 6 6 ind00 zeroB).getD oneB) 5 5 :=
  ⟨by decide, avery_corner_locality 6 6 (by decide) (by decide) 0 0
    ⟨Or.inl rfl, Or.inl rfl⟩ zeroB ind00 zeroB
    (fun a b hab => by simp only [zeroB, ind00]; rw [if_neg hab])
    _ _ (eq_some_getD (by decide) oneB) (eq_some_getD (by decide) oneB)
    5 5 (by decide) (by decide) (Or.inl (by decide))⟩

/-- C9: `Avery` has no side effect beyond writing the output buffer: in the
explicit two-buffer store, a successful run leaves the previous board
bit-for-bit unchanged, and the store has no components other than the two
boards. -/
theorem avery_preserves_previous (W H : Nat) (s s' : Board × Board)
    (h : AveryS W H s = some s') : s'.1 = s.1 :=
  AveryS_fst h

theorem avery_preserves_previous_witness :
    ((AveryS 3 3 (ind11, zeroB)).getD (oneB, oneB)).1 = ind11 :=
  avery_preserves_previous 3 3 (ind11, zeroB) _
    (eq_some_getD (by decide) (oneB, oneB))

/-- C10: `main` fails with a usage message exactly when given more than one
extra argument or one extra argument other than `"-nw"`; otherwise it
registers the method, runs the harness and succeeds, with windowing disabled
exactly when `"-nw"` was given. -/
theorem main_argument_handling (prog : String) (rest : List String) :
    ((lifeMain (prog :: rest)).exit = EXIT_SUCCESS
      ↔ (rest = [] ∨ rest = ["-nw"]))
    ∧ ((lifeMain (prog :: rest)).exit = EXIT_FAILURE
      ↔ ¬(rest = [] ∨ rest = ["-nw"]))
    ∧ ((lifeMain (prog :: rest)).usage = true ↔ ¬(rest = [] ∨ rest = ["-nw"]))
    ∧ ((lifeMain (prog :: rest)).registered = true
      ↔ (rest = [] ∨ rest = ["-nw"]))
    ∧ ((lifeMain (prog :: rest)).ran = true ↔ (rest = [] ∨ rest = ["-nw"]))
    ∧ ((lifeMain (prog :: rest)).noWindow = true ↔ rest = ["-nw"]) := by
  rcases rest with _ | ⟨a, rest2⟩
  · simp [lifeMain, EXIT_SUCCESS, EXIT_FAILURE]
  · rcases rest2 with _ | ⟨b, t⟩
    · by_cases ha : a = "-nw"
      · subst ha
        simp [lifeMain, EXIT_SUCCESS, EXIT_FAILURE]
      · simp [lifeMain, EXIT_SUCCESS, EXIT_FAILURE, ha]
    · simp [lifeMain, EXIT_SUCCESS, EXIT_FAILURE]

end GameOfLife
